import Mathlib

/-!
Shallow embedding of the authorization policy core of the
`clean-architecture-api` Go service: the policy data model
(`internal/domain/entities/policy.go`), the policy engine
(`internal/infrastructure/auth`, file with `PolicyEngineImpl`:
`Evaluate`, `evaluatePolicies`, `statementMatches`, `matchesConditions`,
`checkResourceOwnership`, `LoadPolicies`, `extractRoleFromPrincipal`,
`getPoliciesFromCache`, `deduplicatePolicies`, `AddPolicy`,
`RemovePolicy`), the SQLite storage conversion
(`internal/domain/entities/policy_sqlite.go`) and the default-policy
bootstrap (`internal/infrastructure/database/database.go`).

Modelling conventions:
 - Go `uuid.UUID` values are modelled as `String` (their canonical string
   form); `time.Time` as `Int`.
 - Go `map[string]T` values are modelled as association lists
   `List (String × T)`; lookup takes the first binding, and the builders
   below (`assocSet`) keep keys unique, as a Go map does.
 - Go `interface` values stored in condition and context maps are
   modelled by the flat JSON value type `GoValue` (null, boolean, exact
   integer, string): the values `encoding/json` produces for flat
   documents, with Go `==` on them modelled by decidable equality.
 - Fallible Go calls return `Option GoError` (`none` = nil error);
   repository calls made by the engine are passed in as explicit
   results, so an engine method becomes a function of those results and
   the current cache state.
-/

namespace CleanArch

/-- Flat JSON-style dynamic value: the model of the Go `interface` values
held in condition and context maps. Go compares them with `==`; numbers
are modelled as exact integers. -/
inductive GoValue where
  | vnull : GoValue
  | vbool : Bool → GoValue
  | vint : Int → GoValue
  | vstr : String → GoValue
deriving DecidableEq, Repr

/-- Errors surfaced by the engine and its collaborators: the domain error
`ErrInvalidRequest` ("invalid request") and store/infrastructure
failures, carried with their message. -/
inductive GoError where
  | invalidRequest : GoError
  | storeErr : String → GoError
deriving DecidableEq, Repr

/-- Association-list lookup: the model of a Go map read `m[k]`
(`none` models `exists = false`). -/
def assocFind {α : Type} (m : List (String × α)) (k : String) : Option α :=
  (m.find? (fun kv => kv.1 == k)).map (fun kv => kv.2)

/-- Association-list update: the model of a Go map write `m[k] = v`. -/
def assocSet {α : Type} (m : List (String × α)) (k : String) (v : α) :
    List (String × α) :=
  match m with
  | [] => [(k, v)]
  | kv :: rest => if kv.1 == k then (k, v) :: rest else kv :: assocSet rest k v

/-- `entities.PolicyStatement` (policy.go). -/
structure PolicyStatement where
  id : String
  policyId : String
  effect : String
  principal : String
  action : String
  resource : String
  conditions : List (String × GoValue)
  createdAt : Int
  updatedAt : Int
deriving DecidableEq, Repr

/-- `entities.PolicyDocument` (policy.go). -/
structure PolicyDocument where
  id : String
  name : String
  version : String
  statements : List PolicyStatement
  isActive : Bool
  createdAt : Int
  updatedAt : Int
deriving DecidableEq, Repr

/-- `entities.PermissionRequest` (policy.go). -/
structure PermissionRequest where
  userId : String
  role : String
  resource : String
  action : String
  resourceId : String
  context : List (String × GoValue)
deriving DecidableEq, Repr

/-- `entities.PermissionResponse` (policy.go). -/
structure PermissionResponse where
  allowed : Bool
  reason : String
  policies : List String
  context : List (String × GoValue) := []
deriving DecidableEq, Repr

/-- `constants.PolicyEffectAllow`. -/
def PolicyEffectAllow : String := "allow"

/-- `constants.PolicyEffectDeny`. -/
def PolicyEffectDeny : String := "deny"

/-- `(*PolicyStatement).IsValid` (policy.go). -/
def isValidStatement (s : PolicyStatement) : Bool :=
  s.effect == PolicyEffectAllow || s.effect == PolicyEffectDeny

/-- The engine's role-keyed policy cache `map[string][]*entities.PolicyDocument`. -/
abbrev Cache := List (String × List PolicyDocument)

/-- `matchesPrincipal` of `PolicyEngineImpl`. -/
def matchesPrincipal (principal role : String) : Bool :=
  principal == "*" || principal == "role:" ++ role

/-- `matchesAction` of `PolicyEngineImpl`. -/
def matchesAction (policyAction requestAction : String) : Bool :=
  policyAction == "*" || policyAction == requestAction

/-- `matchesResource` of `PolicyEngineImpl`. -/
def matchesResource (policyResource requestResource : String) : Bool :=
  policyResource == "*" || policyResource == requestResource

/-- `checkResourceOwnership` of `PolicyEngineImpl`: trivially true without a
concrete resource id, otherwise the context's `resource_owner_id` must
exist and equal `req.UserID.String()`. -/
def checkResourceOwnership (req : PermissionRequest) : Bool :=
  if req.resourceId == "" then true
  else
    match assocFind req.context "resource_owner_id" with
    | none => false
    | some contextOwner => contextOwner == GoValue.vstr req.userId

/-- `matchesConditions` of `PolicyEngineImpl`: every condition entry must
hold (the empty map holds vacuously, as in the Go early return); the
reserved key `resource_owner` triggers the ownership check, any other
key requires an equal context entry. -/
def matchesConditions (conditions : List (String × GoValue))
    (req : PermissionRequest) : Bool :=
  conditions.all (fun kv =>
    if kv.1 == "resource_owner" then checkResourceOwnership req
    else
      match assocFind req.context kv.1 with
      | none => false
      | some contextValue => contextValue == kv.2)

/-- `statementMatches` of `PolicyEngineImpl`. -/
def statementMatches (statement : PolicyStatement) (req : PermissionRequest) :
    Bool :=
  matchesPrincipal statement.principal req.role &&
  matchesAction statement.action req.action &&
  matchesResource statement.resource req.resource &&
  matchesConditions statement.conditions req

/-- Names collected by the `evaluatePolicies` loop into `allowPolicies`:
one copy of the owning document's name per matching Allow statement, in
iteration order. -/
def allowNames (policies : List PolicyDocument) (req : PermissionRequest) :
    List String :=
  policies.flatMap (fun p =>
    (p.statements.filter (fun s =>
      statementMatches s req && s.effect == PolicyEffectAllow)).map
      (fun _ => p.name))

/-- Names collected by the `evaluatePolicies` loop into `denyPolicies`:
one copy of the owning document's name per matching Deny statement, in
iteration order. -/
def denyNames (policies : List PolicyDocument) (req : PermissionRequest) :
    List String :=
  policies.flatMap (fun p =>
    (p.statements.filter (fun s =>
      statementMatches s req && s.effect == PolicyEffectDeny)).map
      (fun _ => p.name))

/-- `evaluatePolicies` of `PolicyEngineImpl`: deny overrides allow,
otherwise allow, otherwise an explicit "no matching policy found" deny. -/
def evaluatePolicies (policies : List PolicyDocument)
    (req : PermissionRequest) : PermissionResponse :=
  let deny := denyNames policies req
  let allow := allowNames policies req
  if deny.length > 0 then
    { allowed := false, reason := "denied by policy", policies := deny }
  else if allow.length > 0 then
    { allowed := true, reason := "allowed by policy", policies := allow }
  else
    { allowed := false, reason := "no matching policy found", policies := [] }

/-- `extractRoleFromPrincipal` of `PolicyEngineImpl`: `"*"` stays the
wildcard bucket key; `"role:<r>"` with nonempty `<r>` yields `<r>`
(the Go guard is `len(principal) > 5 && principal[:5] == "role:"`);
anything else yields `""`. -/
def extractRoleFromPrincipal (principal : String) : String :=
  if principal == "*" then "*"
  else if principal.length > 5 && String.take principal 5 == "role:" then
    String.drop principal 5
  else ""

/-- The Go read `pe.cache[k]`: a map read whose zero value is the nil
slice when the key is absent. -/
def bucket (cache : Cache) (k : String) : List PolicyDocument :=
  (assocFind cache k).getD []

/-- One iteration of the inner statement loop of `LoadPolicies`:
`pe.cache[role] = append(pe.cache[role], policy)` for the statement's
extracted role, skipped when the role is empty. -/
def addStatement (p : PolicyDocument) (cache : Cache)
    (s : PolicyStatement) : Cache :=
  let role := extractRoleFromPrincipal s.principal
  if role != "" then assocSet cache role (bucket cache role ++ [p])
  else cache

/-- One iteration of the outer policy loop of `LoadPolicies`. -/
def addDocument (cache : Cache) (p : PolicyDocument) : Cache :=
  p.statements.foldl (addStatement p) cache

/-- The cache-rebuild loop of `LoadPolicies`: starting from the fresh
empty map, append each policy to the bucket of every role one of its
statements references (skipping statements whose principal yields `""`). -/
def buildCache (policies : List PolicyDocument) : Cache :=
  policies.foldl addDocument []

/-- `LoadPolicies` of `PolicyEngineImpl`, with the repository's
`GetActive` result passed in: on a fetch error the error is returned and
the cache is untouched; on success the cache is replaced wholesale by
the rebuilt mapping. -/
def loadPolicies (fetchRes : Except GoError (List PolicyDocument))
    (cache : Cache) : Option GoError × Cache :=
  match fetchRes with
  | .error e => (some e, cache)
  | .ok policies => (none, buildCache policies)

/-- The accumulator recursion of `deduplicatePolicies`: `seen` models the
`map[uuid.UUID]bool` of ids already emitted. -/
def dedupGo (seen : List String) : List PolicyDocument → List PolicyDocument
  | [] => []
  | p :: rest =>
    if p.id ∈ seen then dedupGo seen rest
    else p :: dedupGo (p.id :: seen) rest

/-- `deduplicatePolicies` of `PolicyEngineImpl`: keep the first document
with each id. -/
def deduplicatePolicies (policies : List PolicyDocument) :
    List PolicyDocument :=
  dedupGo [] policies

/-- `getPoliciesFromCache` of `PolicyEngineImpl`: the role's bucket, then
the wildcard bucket, deduplicated by document id. -/
def getPoliciesFromCache (cache : Cache) (role : String) :
    List PolicyDocument :=
  deduplicatePolicies (bucket cache role ++ bucket cache "*")

/-- `Evaluate` of `PolicyEngineImpl`, with the nil-request case modelled
by `none`: nil yields the "invalid request" deny plus
`errors.ErrInvalidRequest`; an empty candidate set yields the
"no policies found for role" deny with a nil error; otherwise the
`evaluatePolicies` outcome with a nil error. -/
def Evaluate (req : Option PermissionRequest) (cache : Cache) :
    PermissionResponse × Option GoError :=
  match req with
  | none =>
    ({ allowed := false, reason := "invalid request", policies := [] },
     some GoError.invalidRequest)
  | some r =>
    let policies := getPoliciesFromCache cache r.role
    if policies.length == 0 then
      ({ allowed := false, reason := "no policies found for role",
         policies := [] }, none)
    else
      (evaluatePolicies policies r, none)

/-- `validatePolicy` of `PolicyEngineImpl`: empty name or any statement
with an invalid effect is rejected with `ErrInvalidRequest`. -/
def validatePolicy (p : PolicyDocument) : Option GoError :=
  if p.name == "" then some GoError.invalidRequest
  else if p.statements.all isValidStatement then none
  else some GoError.invalidRequest

/-- `AddPolicy` of `PolicyEngineImpl`, with the repository's `Create`
result and the subsequent reload's `GetActive` result passed in. -/
def addPolicy (p : PolicyDocument) (createRes : Option GoError)
    (fetchRes : Except GoError (List PolicyDocument)) (cache : Cache) :
    Option GoError × Cache :=
  match validatePolicy p with
  | some e => (some e, cache)
  | none =>
    match createRes with
    | some e => (some e, cache)
    | none => loadPolicies fetchRes cache

/-- `RemovePolicy` of `PolicyEngineImpl`, with the repository's `Delete`
result and the subsequent reload's `GetActive` result passed in. -/
def removePolicy (deleteRes : Option GoError)
    (fetchRes : Except GoError (List PolicyDocument)) (cache : Cache) :
    Option GoError × Cache :=
  match deleteRes with
  | some e => (some e, cache)
  | none => loadPolicies fetchRes cache

/-! ### Model of `encoding/json` on flat value maps

`FromPolicyDocument` stores a statement's condition map as
`string(json.Marshal(conditions))` and `ToPolicyDocument` recovers it
with `json.Unmarshal`. The two stdlib calls are modelled here on the
flat JSON documents this system stores: an object whose values are
null, booleans, exact integers or strings. The marshaller emits the
object members in association-list order (the association list is the
canonical form of the Go map, whose members `json.Marshal` emits in
sorted key order) and escapes quote and backslash in strings; the
parser is a recursive-descent reader of exactly that grammar, with Go's
"error ⇒ empty conditions" recovery reproduced in `unmarshalConditions`. -/

/-- The `{` character, written by its code point. -/
def lbraceChar : Char := Char.ofNat 123

/-- The `}` character, written by its code point. -/
def rbraceChar : Char := Char.ofNat 125

/-- JSON string-body escaping: quote and backslash get a backslash. -/
def escapeChars (s : List Char) : List Char :=
  s.flatMap (fun c => if c = '"' ∨ c = '\\' then ['\\', c] else [c])

/-- The ASCII digit for `d` (callers keep `d < 10`; larger inputs clamp). -/
def digitChar (d : Nat) : Char :=
  match d with
  | 0 => '0' | 1 => '1' | 2 => '2' | 3 => '3' | 4 => '4'
  | 5 => '5' | 6 => '6' | 7 => '7' | 8 => '8' | _ => '9'

/-- Decimal digits of a positive number, least significant first, with a
structural fuel bound so the kernel can evaluate it. -/
def natDigitsAux : Nat → Nat → List Char
  | 0, _ => []
  | fuel + 1, n =>
    if n = 0 then [] else digitChar (n % 10) :: natDigitsAux fuel (n / 10)

/-- Decimal digits of a natural number, most significant first. -/
def natToChars (n : Nat) : List Char :=
  if n = 0 then ['0'] else (natDigitsAux n n).reverse

/-- Decimal rendering of an integer (Go renders integral `float64`
condition values this way). -/
def intToChars : Int → List Char
  | .ofNat n => natToChars n
  | .negSucc m => '-' :: natToChars (m + 1)

/-- JSON rendering of one flat value. -/
def marshalValue : GoValue → List Char
  | .vnull => ['n', 'u', 'l', 'l']
  | .vbool true => ['t', 'r', 'u', 'e']
  | .vbool false => ['f', 'a', 'l', 's', 'e']
  | .vint n => intToChars n
  | .vstr s => '"' :: escapeChars s.data ++ ['"']

/-- JSON rendering of one object member, `"key":value`. -/
def marshalMember (kv : String × GoValue) : List Char :=
  '"' :: escapeChars kv.1.data ++ ['"'] ++ [':'] ++ marshalValue kv.2

/-- Comma-joined concatenation of rendered members. -/
def joinComma : List (List Char) → List Char
  | [] => []
  | [m] => m
  | m :: rest => m ++ [','] ++ joinComma rest

/-- JSON rendering of a condition map (the empty map renders as the
empty object, as `json.Marshal` renders a non-nil empty Go map). -/
def marshalConds (m : List (String × GoValue)) : List Char :=
  match m with
  | [] => [lbraceChar, rbraceChar]
  | _ => lbraceChar :: joinComma (m.map marshalMember) ++ [rbraceChar]

/-- ASCII decimal-digit test. -/
def isDigitChar (c : Char) : Bool :=
  decide (48 ≤ c.toNat ∧ c.toNat ≤ 57)

/-- Numeric value of an ASCII digit. -/
def digitVal (c : Char) : Nat := c.toNat - 48

/-- Read a maximal nonempty digit run as a natural number. -/
def parseDigits (cs : List Char) : Option (Nat × List Char) :=
  let ds := cs.takeWhile isDigitChar
  if ds.isEmpty then none
  else some (ds.foldl (fun a c => 10 * a + digitVal c) 0,
             cs.dropWhile isDigitChar)

/-- Require the literal characters `l` at the front of the input. -/
def expectChars (l cs : List Char) : Option (List Char) :=
  match l, cs with
  | [], rest => some rest
  | e :: l', c :: cs' => if c = e then expectChars l' cs' else none
  | _ :: _, [] => none

/-- Read a JSON string body up to its closing quote, undoing
`escapeChars`. -/
def parseStringBody : List Char → Option (List Char × List Char)
  | [] => none
  | c :: rest =>
    if c = '"' then some ([], rest)
    else if c = '\\' then
      match rest with
      | [] => none
      | d :: rest2 =>
        if d = '"' ∨ d = '\\' then
          (parseStringBody rest2).map (fun p => (d :: p.1, p.2))
        else none
    else (parseStringBody rest).map (fun p => (c :: p.1, p.2))

/-- Read one flat JSON value. -/
def parseValue (cs : List Char) : Option (GoValue × List Char) :=
  match cs with
  | [] => none
  | c :: rest =>
    if c = 'n' then
      (expectChars ['u', 'l', 'l'] rest).map (fun r => (GoValue.vnull, r))
    else if c = 't' then
      (expectChars ['r', 'u', 'e'] rest).map (fun r => (GoValue.vbool true, r))
    else if c = 'f' then
      (expectChars ['a', 'l', 's', 'e'] rest).map
        (fun r => (GoValue.vbool false, r))
    else if c = '"' then
      (parseStringBody rest).map (fun p => (GoValue.vstr (String.mk p.1), p.2))
    else if c = '-' then
      (parseDigits rest).map (fun p => (GoValue.vint (-(p.1 : Int)), p.2))
    else (parseDigits (c :: rest)).map (fun p => (GoValue.vint (p.1 : Int), p.2))

/-- Read one object member, `"key":value`. -/
def parseMember (cs : List Char) : Option ((String × GoValue) × List Char) :=
  match cs with
  | [] => none
  | c :: rest =>
    if c = '"' then
      match parseStringBody rest with
      | none => none
      | some (k, r1) =>
        match expectChars [':'] r1 with
        | none => none
        | some r2 =>
          (parseValue r2).map (fun p => ((String.mk k, p.1), p.2))
    else none

/-- Read `member (, member)* }` — a nonempty member list and the closing
brace; `fuel` bounds the recursion by the input length. -/
def parseMembers (fuel : Nat) (cs : List Char) :
    Option (List (String × GoValue) × List Char) :=
  match fuel with
  | 0 => none
  | fuel + 1 =>
    match parseMember cs with
    | none => none
    | some (kv, r1) =>
      match r1 with
      | [] => none
      | c :: r2 =>
        if c = ',' then
          (parseMembers fuel r2).map (fun p => (kv :: p.1, p.2))
        else if c = rbraceChar then some ([kv], r2)
        else none

/-- Read a flat JSON object (or the literal `null`, which `json.Unmarshal`
reads into a nil map). -/
def parseJsonObject (cs : List Char) :
    Option (List (String × GoValue) × List Char) :=
  match cs with
  | c :: rest =>
    if c = lbraceChar then
      match rest with
      | d :: rest2 =>
        if d = rbraceChar then some ([], rest2)
        else parseMembers rest.length rest
      | [] => none
    else if c = 'n' then
      (expectChars ['u', 'l', 'l'] rest).map (fun r => ([], r))
    else none
  | [] => none

/-- `json.Unmarshal` of a stored conditions column into a condition map,
as used by `ToPolicyDocument`: the empty column is skipped (nil map),
and any parse failure falls back to the empty map (the Go code assigns
`map[string]interface{}{}` when `Unmarshal` errors). -/
def unmarshalConditions (s : String) : List (String × GoValue) :=
  if s == "" then []
  else
    match parseJsonObject s.data with
    | some (m, []) => m
    | _ => []

/-! ### SQLite storage conversion (`policy_sqlite.go`) -/

/-- `entities.PolicyStatementSQLite` (policy_sqlite.go): conditions held
as a JSON text column. -/
structure PolicyStatementSQLite where
  id : String
  policyId : String
  effect : String
  principal : String
  action : String
  resource : String
  conditions : String
  createdAt : Int
  updatedAt : Int
deriving DecidableEq, Repr

/-- `entities.PolicyDocumentSQLite` (policy_sqlite.go), its
`BaseSQLiteEntity` fields inlined. -/
structure PolicyDocumentSQLite where
  id : String
  createdAt : Int
  updatedAt : Int
  name : String
  version : String
  statements : List PolicyStatementSQLite
  isActive : Bool
deriving DecidableEq, Repr

/-- `FromPolicyDocument` (policy_sqlite.go): statements carry the owning
document's id as their `PolicyID` column and their condition map
marshalled to JSON text. -/
def fromPolicyDocument (policy : PolicyDocument) : PolicyDocumentSQLite :=
  { id := policy.id
    createdAt := policy.createdAt
    updatedAt := policy.updatedAt
    name := policy.name
    version := policy.version
    isActive := policy.isActive
    statements := policy.statements.map (fun stmt =>
      { id := stmt.id
        policyId := policy.id
        effect := stmt.effect
        principal := stmt.principal
        action := stmt.action
        resource := stmt.resource
        conditions := String.mk (marshalConds stmt.conditions)
        createdAt := stmt.createdAt
        updatedAt := stmt.updatedAt }) }

/-- `ToPolicyDocument` (policy_sqlite.go): id strings pass through (Go
parses and re-renders UUIDs; parse failures are discarded there) and
the conditions column is unmarshalled with empty-map recovery. -/
def toPolicyDocument (p : PolicyDocumentSQLite) : PolicyDocument :=
  { id := p.id
    name := p.name
    version := p.version
    isActive := p.isActive
    createdAt := p.createdAt
    updatedAt := p.updatedAt
    statements := p.statements.map (fun stmt =>
      { id := stmt.id
        policyId := stmt.policyId
        effect := stmt.effect
        principal := stmt.principal
        action := stmt.action
        resource := stmt.resource
        conditions := unmarshalConditions stmt.conditions
        createdAt := stmt.createdAt
        updatedAt := stmt.updatedAt }) }

/-! ### Default-policy bootstrap (`database.go`) -/

/-- `createAdminPolicy` (database.go); the generated UUIDs are passed in. -/
def createAdminPolicy (docId stmtId : String) : PolicyDocument :=
  { id := docId
    name := "admin-full-access"
    version := "1.0"
    isActive := true
    createdAt := 0
    updatedAt := 0
    statements := [
      { id := stmtId
        policyId := ""
        effect := PolicyEffectAllow
        principal := "role:" ++ "admin"
        action := "*"
        resource := "*"
        conditions := []
        createdAt := 0
        updatedAt := 0 }] }

/-- The `productPermissions` list of `createUserPolicy` (database.go). -/
def productPermissions : List String :=
  ["product:create", "product:read", "product:update", "product:delete",
   "product:list"]

/-- The `userActions` list of `createUserPolicy` (database.go). -/
def userActions : List String :=
  ["create", "read", "update", "delete", "list"]

/-- `createUserPolicy` (database.go): one Allow statement per
`productPermissions` entry, paired by index with `userActions`; the
generated statement UUIDs are passed in as an index-keyed supply. -/
def createUserPolicy (docId : String) (stmtIds : Nat → String) :
    PolicyDocument :=
  { id := docId
    name := "user-product-access"
    version := "1.0"
    isActive := true
    createdAt := 0
    updatedAt := 0
    statements := (List.range productPermissions.length).map (fun i =>
      { id := stmtIds i
        policyId := ""
        effect := PolicyEffectAllow
        principal := "role:" ++ "user"
        action := userActions.getD i ""
        resource := productPermissions.getD i ""
        conditions := []
        createdAt := 0
        updatedAt := 0 }) }

/-- `InitializeDefaultPolicies` composed with
`initializePoliciesWithModel` (database.go), with the store's row count
passed in: a positive count skips creation entirely, a zero count
creates the admin and user documents, in that order. -/
def initializeDefaultPolicies (count : Nat) (adminDocId adminStmtId
    userDocId : String) (userStmtIds : Nat → String) : List PolicyDocument :=
  if count > 0 then []
  else [createAdminPolicy adminDocId adminStmtId,
        createUserPolicy userDocId userStmtIds]

/-- The spec's ownership rule: trivially satisfied without a concrete
resource id; with one, the context's `resource_owner_id` must exist and
equal the requesting user's id as a string. -/
def OwnershipSpec (req : PermissionRequest) : Prop :=
  req.resourceId ≠ "" →
    assocFind req.context "resource_owner_id" = some (GoValue.vstr req.userId)

/-- Common generalization of `allowNames` and `denyNames` over the
effect constant. -/
def effectNames (eff : String) (policies : List PolicyDocument)
    (req : PermissionRequest) : List String :=
  policies.flatMap fun p =>
    (p.statements.filter fun s =>
      statementMatches s req && s.effect == eff).map fun _ => p.name

/-- Some candidate policy has a matching statement with the given effect. -/
def HasMatchingEffect (policies : List PolicyDocument)
    (req : PermissionRequest) (eff : String) : Prop :=
  ∃ p ∈ policies, ∃ s ∈ p.statements,
    statementMatches s req = true ∧ s.effect = eff

instance (policies : List PolicyDocument) (req : PermissionRequest)
    (eff : String) : Decidable (HasMatchingEffect policies req eff) := by
  unfold HasMatchingEffect
  infer_instance

/-- Candidate lists that differ only in statement order within documents
and in document order across the list: the reorderings over which the
spec asserts the decision is invariant. -/
def ReorderedPolicies (ps qs : List PolicyDocument) : Prop :=
  ∃ ms, List.Forall₂ (fun p q =>
      p.id = q.id ∧ p.name = q.name ∧ p.version = q.version ∧
      p.isActive = q.isActive ∧ p.createdAt = q.createdAt ∧
      p.updatedAt = q.updatedAt ∧ p.statements.Perm q.statements) ps ms ∧
    ms.Perm qs

/-- A wildcard Deny statement used by the concrete witnesses. -/
def sampleDenyStatement : PolicyStatement :=
  { id := "s1", policyId := "d1", effect := "deny", principal := "*",
    action := "*", resource := "*", conditions := [], createdAt := 0,
    updatedAt := 0 }

/-- A wildcard Allow statement used by the concrete witnesses. -/
def sampleAllowStatement : PolicyStatement :=
  { sampleDenyStatement with id := "s2", effect := "allow" }

/-- A document holding both sample statements, Allow first. -/
def sampleMixedDoc : PolicyDocument :=
  { id := "d1", name := "D", version := "1.0",
    statements := [sampleAllowStatement, sampleDenyStatement],
    isActive := true, createdAt := 0, updatedAt := 0 }

/-- The same document with its statements in the opposite order. -/
def sampleMixedDocRev : PolicyDocument :=
  { sampleMixedDoc with
    statements := [sampleDenyStatement, sampleAllowStatement] }

/-- A concrete well-formed permission request used by the witnesses. -/
def sampleReq : PermissionRequest :=
  { userId := "u", role := "user", resource := "product:create",
    action := "create", resourceId := "", context := [] }

/-- A statement whose principal is a bare role name (no `role:` marker),
used to witness C9. -/
def sampleBareStatement : PolicyStatement :=
  { sampleDenyStatement with id := "s4", principal := "admin" }

/-- A Deny statement whose principal is the bare literal `"role:"`
(length five, so it contributes no cache bucket entry). -/
def sampleRoleColonStatement : PolicyStatement :=
  { sampleDenyStatement with id := "s5", principal := "role:" }

/-- A document cached through its wildcard Allow statement that also
carries the `"role:"`-principal Deny statement. -/
def sampleColonDoc : PolicyDocument :=
  { sampleMixedDoc with
    statements := [sampleAllowStatement, sampleRoleColonStatement] }

/-- The same document without the `"role:"`-principal statement. -/
def sampleColonFreeDoc : PolicyDocument :=
  { sampleMixedDoc with statements := [sampleAllowStatement] }

/-- A request whose role is the empty string. -/
def sampleEmptyRoleReq : PermissionRequest :=
  { sampleReq with role := "" }

/-! ### Theorems -/


/-- C3: `Evaluate` never returns an error for a present request (an empty
candidate set yields the explicit "no policies found for role" deny, a
nonempty one the `evaluatePolicies` outcome, both with a nil error); the
nil request yields the "invalid request" deny together with
`ErrInvalidRequest`; and an error is only ever returned for the nil
request. -/
theorem claim_C3_evaluate_never_errors (cache : Cache) :
    (∀ req : PermissionRequest, (Evaluate (some req) cache).2 = none) ∧
    Evaluate none cache =
      ({ allowed := false, reason := "invalid request", policies := [] },
       some GoError.invalidRequest) ∧
    (∀ r : Option PermissionRequest, (Evaluate r cache).2 ≠ none → r = none) := by
  refine ⟨fun req => ?_, rfl, fun r hr => ?_⟩
  · simp only [Evaluate]
    split <;> rfl
  · cases r with
    | none => rfl
    | some req =>
      exfalso
      apply hr
      simp only [Evaluate]
      split <;> rfl

/-- Witness for C3 at a concrete cache: the empty cache errors only on
the nil request, and a concrete request gets a nil error. -/
theorem claim_C3_evaluate_never_errors_witness :
    (Evaluate (some { userId := "u", role := "user", resource := "r",
                      action := "a", resourceId := "", context := [] })
      []).2 = none ∧
    (none : Option PermissionRequest) = none :=
  ⟨(claim_C3_evaluate_never_errors []).1 _,
   (claim_C3_evaluate_never_errors []).2.2 none (by decide)⟩

/-- C4: when the store's fetch of active documents fails, the load —
invoked directly, through `AddPolicy` (after a passing validation and
create), or through `RemovePolicy` (after a passing delete) — returns
exactly that error and leaves the cached role-to-policies mapping
untouched. -/
theorem claim_C4_fetch_failure_preserves_cache (e : GoError) (cache : Cache)
    (p : PolicyDocument) (createRes deleteRes : Option GoError) :
    loadPolicies (.error e) cache = (some e, cache) ∧
    (validatePolicy p = none → createRes = none →
      addPolicy p createRes (.error e) cache = (some e, cache)) ∧
    (deleteRes = none →
      removePolicy deleteRes (.error e) cache = (some e, cache)) := by
  refine ⟨rfl, fun hv hc => ?_, fun hd => ?_⟩
  · simp only [addPolicy, hv, hc, loadPolicies]
  · simp only [removePolicy, hd, loadPolicies]

/-- Witness for C4: a concrete store failure during the reload of
`AddPolicy` of a valid document, and during `RemovePolicy`, each surface
the error over an untouched concrete cache. -/
theorem claim_C4_fetch_failure_preserves_cache_witness :
    addPolicy (createAdminPolicy "d" "s") none
        (.error (GoError.storeErr "io")) [] = (some (GoError.storeErr "io"), []) ∧
    removePolicy none (.error (GoError.storeErr "io")) [] =
      (some (GoError.storeErr "io"), []) :=
  ⟨(claim_C4_fetch_failure_preserves_cache (GoError.storeErr "io") []
      (createAdminPolicy "d" "s") none none).2.1 (by decide) rfl,
   (claim_C4_fetch_failure_preserves_cache (GoError.storeErr "io") []
      (createAdminPolicy "d" "s") none none).2.2 rfl⟩

/-- C7: the bootstrap creates nothing when the active-policy count is
positive; at count zero it creates exactly the two default documents:
`admin-full-access` with its single wildcard Allow statement for
`role:admin`, and `user-product-access` with the five Allow statements
pairing each product action with its `product:<action>` resource. -/
theorem claim_C7_bootstrap_default_policies (count : Nat)
    (aId asId uId : String) (sIds : Nat → String) :
    (0 < count → initializeDefaultPolicies count aId asId uId sIds = []) ∧
    (count = 0 → ∃ d1 d2,
      initializeDefaultPolicies count aId asId uId sIds = [d1, d2] ∧
      d1.name = "admin-full-access" ∧
      d1.statements.map
          (fun s => (s.effect, s.principal, s.action, s.resource, s.conditions)) =
        [("allow", "role:admin", "*", "*", [])] ∧
      d2.name = "user-product-access" ∧
      d2.statements.map
          (fun s => (s.effect, s.principal, s.action, s.resource, s.conditions)) =
        [("allow", "role:user", "create", "product:create", []),
         ("allow", "role:user", "read", "product:read", []),
         ("allow", "role:user", "update", "product:update", []),
         ("allow", "role:user", "delete", "product:delete", []),
         ("allow", "role:user", "list", "product:list", [])]) := by
  constructor
  · intro hpos
    simp only [initializeDefaultPolicies, if_pos hpos]
  · intro hzero
    subst hzero
    refine ⟨createAdminPolicy aId asId, createUserPolicy uId sIds, rfl,
      rfl, rfl, rfl, rfl⟩

/-- Witness for C7 at concrete counts and id supplies: count 3 creates
nothing; count 0 creates the two default documents. -/
theorem claim_C7_bootstrap_default_policies_witness :
    initializeDefaultPolicies 3 "a" "b" "c" (fun _ => "s") = [] ∧
    ∃ d1 d2, initializeDefaultPolicies 0 "a" "b" "c" (fun _ => "s") = [d1, d2] ∧
      d1.name = "admin-full-access" ∧
      d1.statements.map
          (fun s => (s.effect, s.principal, s.action, s.resource, s.conditions)) =
        [("allow", "role:admin", "*", "*", [])] ∧
      d2.name = "user-product-access" ∧
      d2.statements.map
          (fun s => (s.effect, s.principal, s.action, s.resource, s.conditions)) =
        [("allow", "role:user", "create", "product:create", []),
         ("allow", "role:user", "read", "product:read", []),
         ("allow", "role:user", "update", "product:update", []),
         ("allow", "role:user", "delete", "product:delete", []),
         ("allow", "role:user", "list", "product:list", [])] :=
  ⟨(claim_C7_bootstrap_default_policies 3 "a" "b" "c" (fun _ => "s")).1
      (by decide),
   (claim_C7_bootstrap_default_policies 0 "a" "b" "c" (fun _ => "s")).2 rfl⟩

theorem checkResourceOwnership_iff (req : PermissionRequest) :
    checkResourceOwnership req = true ↔ OwnershipSpec req := by
  unfold checkResourceOwnership OwnershipSpec
  by_cases h : req.resourceId = ""
  · simp [h]
  · cases hf : assocFind req.context "resource_owner_id" with
    | none => simp [h, hf]
    | some v => simp [h, hf]

theorem condEntry_iff (req : PermissionRequest) (kv : String × GoValue) :
    (if kv.1 == "resource_owner" then checkResourceOwnership req
     else
       match assocFind req.context kv.1 with
       | none => false
       | some contextValue => contextValue == kv.2) = true ↔
    ((kv.1 = "resource_owner" → OwnershipSpec req) ∧
     (kv.1 ≠ "resource_owner" → assocFind req.context kv.1 = some kv.2)) := by
  by_cases h : kv.1 = "resource_owner"
  · simp [h, checkResourceOwnership_iff]
  · cases hf : assocFind req.context kv.1 with
    | none => simp [h, hf]
    | some v =>
      have hcond : (kv.1 == "resource_owner") = false := by
        simpa using h
      simp only [hcond, Bool.false_eq_true, if_false, hf, beq_iff_eq,
        Option.some.injEq, ne_eq]
      constructor
      · intro he
        exact ⟨fun habs => absurd habs h, fun _ => he⟩
      · intro hp
        exact hp.2 h

theorem matchesConditions_iff (conds : List (String × GoValue))
    (req : PermissionRequest) :
    matchesConditions conds req = true ↔
      ∀ kv ∈ conds,
        (kv.1 = "resource_owner" → OwnershipSpec req) ∧
        (kv.1 ≠ "resource_owner" →
          assocFind req.context kv.1 = some kv.2) := by
  simp only [matchesConditions, List.all_eq_true]
  exact forall_congr' fun kv => imp_congr_right fun _ => condEntry_iff req kv

/-- C2: a statement matches a request exactly when principal, action and
resource each match literally or by wildcard, and every condition entry
holds — the reserved `resource_owner` key by the ownership rule, any
other key by an existing, equal context entry (so the empty condition
map matches vacuously). -/
theorem claim_C2_statement_match_characterization (stmt : PolicyStatement)
    (req : PermissionRequest) :
    statementMatches stmt req = true ↔
      ((stmt.principal = "*" ∨ stmt.principal = "role:" ++ req.role) ∧
       (stmt.action = "*" ∨ stmt.action = req.action) ∧
       (stmt.resource = "*" ∨ stmt.resource = req.resource) ∧
       ∀ kv ∈ stmt.conditions,
         (kv.1 = "resource_owner" → OwnershipSpec req) ∧
         (kv.1 ≠ "resource_owner" →
           assocFind req.context kv.1 = some kv.2)) := by
  simp only [statementMatches, Bool.and_eq_true, matchesPrincipal,
    matchesAction, matchesResource, Bool.or_eq_true, beq_iff_eq,
    matchesConditions_iff, and_assoc]

/-- Names produced by one flatMap-over-filtered-statements pass occur
once per selected statement: the count of a name is the sum, over the
documents, of the selected-statement count of the documents bearing
that name. -/
theorem count_names_flatMap (f : PolicyDocument → List PolicyStatement)
    (policies : List PolicyDocument) (n : String) :
    (policies.flatMap fun p => (f p).map fun _ => p.name).count n =
      (policies.map fun p =>
        if n = p.name then (f p).length else 0).sum := by
  induction policies with
  | nil => simp
  | cons p rest ih =>
    simp only [List.flatMap_cons, List.count_append, ih, List.map_cons,
      List.sum_cons]
    congr 1
    rw [List.map_const', List.count_replicate]
    exact if_congr (by rw [beq_iff_eq]; exact eq_comm) rfl rfl

/-- C10: the response's policies list carries the owning document's name
once per matching statement of the deciding effect — the multiplicity
of a name is the total number of matching Deny (respectively Allow)
statements across the candidate documents bearing that name, so
duplicates arise whenever a document has several matching statements. -/
theorem claim_C10_name_multiplicity (policies : List PolicyDocument)
    (req : PermissionRequest) (n : String) :
    ((evaluatePolicies policies req).reason = "denied by policy" →
       (evaluatePolicies policies req).policies.count n =
         (policies.map fun p =>
           if n = p.name then
             (p.statements.filter fun s =>
               statementMatches s req && s.effect == PolicyEffectDeny).length
           else 0).sum) ∧
    ((evaluatePolicies policies req).allowed = true →
       (evaluatePolicies policies req).policies.count n =
         (policies.map fun p =>
           if n = p.name then
             (p.statements.filter fun s =>
               statementMatches s req && s.effect == PolicyEffectAllow).length
           else 0).sum) := by
  unfold evaluatePolicies
  by_cases hd : (denyNames policies req).length > 0
  · simp only [hd, if_pos]
    refine ⟨fun _ => ?_, fun hab => by simp at hab⟩
    exact count_names_flatMap _ policies n
  · by_cases ha : (allowNames policies req).length > 0
    · simp only [hd, ha, if_neg, if_pos, not_false_iff]
      refine ⟨fun hr => absurd hr (by decide), fun _ => ?_⟩
      exact count_names_flatMap _ policies n
    · simp only [hd, ha, if_neg, not_false_iff]
      refine ⟨fun hr => absurd hr (by decide), fun hab => by simp at hab⟩

theorem allowNames_eq_effectNames (policies : List PolicyDocument)
    (req : PermissionRequest) :
    allowNames policies req = effectNames PolicyEffectAllow policies req := rfl

theorem denyNames_eq_effectNames (policies : List PolicyDocument)
    (req : PermissionRequest) :
    denyNames policies req = effectNames PolicyEffectDeny policies req := rfl

theorem mem_effectNames_iff (eff : String) (policies : List PolicyDocument)
    (req : PermissionRequest) (n : String) :
    n ∈ effectNames eff policies req ↔
      ∃ p ∈ policies, p.name = n ∧ ∃ s ∈ p.statements,
        statementMatches s req = true ∧ s.effect = eff := by
  simp only [effectNames, List.mem_flatMap, List.mem_map, List.mem_filter,
    Bool.and_eq_true, beq_iff_eq]
  constructor
  · rintro ⟨p, hp, s, ⟨hs, hm, he⟩, hname⟩
    exact ⟨p, hp, hname, s, hs, hm, he⟩
  · rintro ⟨p, hp, hname, s, hs, hm, he⟩
    exact ⟨p, hp, s, ⟨hs, hm, he⟩, hname⟩

theorem effectNames_ne_nil_iff (eff : String) (policies : List PolicyDocument)
    (req : PermissionRequest) :
    effectNames eff policies req ≠ [] ↔
      HasMatchingEffect policies req eff := by
  constructor
  · intro h
    obtain ⟨n, hn⟩ := List.exists_mem_of_ne_nil _ h
    obtain ⟨p, hp, -, s, hs, hm, he⟩ := (mem_effectNames_iff eff policies req n).1 hn
    exact ⟨p, hp, s, hs, hm, he⟩
  · rintro ⟨p, hp, s, hs, hm, he⟩
    intro hnil
    have : p.name ∈ effectNames eff policies req :=
      (mem_effectNames_iff eff policies req p.name).2 ⟨p, hp, rfl, s, hs, hm, he⟩
    rw [hnil] at this
    cases this

theorem eval_eq_of_deny (policies : List PolicyDocument)
    (req : PermissionRequest)
    (h : HasMatchingEffect policies req PolicyEffectDeny) :
    evaluatePolicies policies req =
      { allowed := false, reason := "denied by policy",
        policies := denyNames policies req } := by
  have hne : denyNames policies req ≠ [] := by
    rw [denyNames_eq_effectNames, effectNames_ne_nil_iff]
    exact h
  have hlen : (denyNames policies req).length > 0 := List.length_pos.2 hne
  simp only [evaluatePolicies, hlen, if_pos]

theorem eval_eq_of_allow (policies : List PolicyDocument)
    (req : PermissionRequest)
    (hnd : ¬ HasMatchingEffect policies req PolicyEffectDeny)
    (ha : HasMatchingEffect policies req PolicyEffectAllow) :
    evaluatePolicies policies req =
      { allowed := true, reason := "allowed by policy",
        policies := allowNames policies req } := by
  have hdnil : denyNames policies req = [] := by
    by_contra hne
    exact hnd ((effectNames_ne_nil_iff _ policies req).1
      (by rw [← denyNames_eq_effectNames]; exact hne))
  have hane : allowNames policies req ≠ [] := by
    rw [allowNames_eq_effectNames, effectNames_ne_nil_iff]
    exact ha
  have halen : (allowNames policies req).length > 0 := List.length_pos.2 hane
  simp [evaluatePolicies, hdnil, halen]

theorem eval_eq_of_no_match (policies : List PolicyDocument)
    (req : PermissionRequest)
    (hnd : ¬ HasMatchingEffect policies req PolicyEffectDeny)
    (hna : ¬ HasMatchingEffect policies req PolicyEffectAllow) :
    evaluatePolicies policies req =
      { allowed := false, reason := "no matching policy found",
        policies := [] } := by
  have hdnil : denyNames policies req = [] := by
    by_contra hne
    exact hnd ((effectNames_ne_nil_iff _ policies req).1
      (by rw [← denyNames_eq_effectNames]; exact hne))
  have hanil : allowNames policies req = [] := by
    by_contra hne
    exact hna ((effectNames_ne_nil_iff _ policies req).1
      (by rw [← allowNames_eq_effectNames]; exact hne))
  simp [evaluatePolicies, hdnil, hanil]

theorem exists_rel_of_forall₂_mem {α β : Type} {R : α → β → Prop}
    {l₁ : List α} {l₂ : List β} (h : List.Forall₂ R l₁ l₂) {a : α}
    (ha : a ∈ l₁) : ∃ b ∈ l₂, R a b := by
  induction h with
  | nil => cases ha
  | cons hr ht ih =>
    rcases List.mem_cons.1 ha with rfl | ha'
    · exact ⟨_, List.mem_cons_self _ _, hr⟩
    · obtain ⟨b, hb, hrb⟩ := ih ha'
      exact ⟨b, List.mem_cons_of_mem _ hb, hrb⟩

theorem hasMatch_of_reordered {ps qs : List PolicyDocument}
    (h : ReorderedPolicies ps qs) (req : PermissionRequest) (eff : String) :
    HasMatchingEffect ps req eff → HasMatchingEffect qs req eff := by
  rintro ⟨p, hp, s, hs, hm, he⟩
  obtain ⟨ms, hf, hperm⟩ := h
  obtain ⟨q, hq, ⟨-, -, -, -, -, -, hsp⟩⟩ := exists_rel_of_forall₂_mem hf hp
  exact ⟨q, hperm.mem_iff.1 hq, s, hsp.mem_iff.1 hs, hm, he⟩

theorem length_names_flatMap (f : PolicyDocument → List PolicyStatement)
    (policies : List PolicyDocument) :
    (policies.flatMap fun p => (f p).map fun _ => p.name).length =
      (policies.map fun p => (f p).length).sum := by
  induction policies with
  | nil => rfl
  | cons p rest ih =>
    simp only [List.flatMap_cons, List.length_append, List.length_map, ih,
      List.map_cons, List.sum_cons]

theorem map_eq_of_forall₂ {α β γ : Type} {R : α → β → Prop} {f : α → γ}
    {g : β → γ} {l₁ : List α} {l₂ : List β} (h : List.Forall₂ R l₁ l₂)
    (hfg : ∀ a b, R a b → f a = g b) : l₁.map f = l₂.map g := by
  induction h with
  | nil => rfl
  | cons hr ht ih => simp only [List.map_cons, ih, hfg _ _ hr]

theorem effectNames_length_eq_of_reordered {ps qs : List PolicyDocument}
    (h : ReorderedPolicies ps qs) (req : PermissionRequest) (eff : String) :
    (effectNames eff qs req).length = (effectNames eff ps req).length := by
  obtain ⟨ms, hf, hperm⟩ := h
  have hc : ∀ l : List PolicyDocument, (effectNames eff l req).length =
      (l.map fun p => (p.statements.filter fun s =>
        statementMatches s req && s.effect == eff).length).sum :=
    fun l => length_names_flatMap _ l
  rw [hc ps, hc qs]
  have hmap : (ps.map fun p => (p.statements.filter fun s =>
      statementMatches s req && s.effect == eff).length) =
      (ms.map fun p => (p.statements.filter fun s =>
        statementMatches s req && s.effect == eff).length) := by
    refine map_eq_of_forall₂ hf fun p q hr => ?_
    obtain ⟨-, -, -, -, -, -, hsp⟩ := hr
    exact (hsp.filter _).length_eq
  rw [hmap]
  exact (hperm.map _).sum_eq.symm

theorem count_effectNames_eq_of_reordered {ps qs : List PolicyDocument}
    (h : ReorderedPolicies ps qs) (req : PermissionRequest) (eff n : String) :
    (effectNames eff qs req).count n = (effectNames eff ps req).count n := by
  obtain ⟨ms, hf, hperm⟩ := h
  have hc : ∀ l : List PolicyDocument, (effectNames eff l req).count n =
      (l.map fun p => if n = p.name then
        (p.statements.filter fun s =>
          statementMatches s req && s.effect == eff).length else 0).sum :=
    fun l => count_names_flatMap _ l n
  rw [hc ps, hc qs]
  have hmap : (ps.map fun p => if n = p.name then
      (p.statements.filter fun s =>
        statementMatches s req && s.effect == eff).length else 0) =
      (ms.map fun p => if n = p.name then
        (p.statements.filter fun s =>
          statementMatches s req && s.effect == eff).length else 0) := by
    refine map_eq_of_forall₂ hf fun p q hr => ?_
    obtain ⟨-, hname, -, -, -, -, hsp⟩ := hr
    rw [hname, (hsp.filter _).length_eq]
  rw [hmap]
  exact (hperm.map _).sum_eq.symm

/-- C1: the evaluation decision is deny-overrides-allow — any matching
Deny yields the deny response carrying the Deny owners' names; otherwise
a matching Allow yields the allow response carrying the Allow owners'
names; otherwise the explicit "no matching policy found" deny — and the
outcome (allowed flag, reason, and the multiset of owning-document
names) is invariant under reordering statements within and documents
across the candidate list. -/
theorem claim_C1_deny_overrides_allow (policies : List PolicyDocument)
    (req : PermissionRequest) :
    (HasMatchingEffect policies req PolicyEffectDeny →
      evaluatePolicies policies req =
        { allowed := false, reason := "denied by policy",
          policies := denyNames policies req } ∧
      ∀ n, n ∈ denyNames policies req ↔
        ∃ p ∈ policies, p.name = n ∧ ∃ s ∈ p.statements,
          statementMatches s req = true ∧ s.effect = PolicyEffectDeny) ∧
    (¬ HasMatchingEffect policies req PolicyEffectDeny →
      HasMatchingEffect policies req PolicyEffectAllow →
      evaluatePolicies policies req =
        { allowed := true, reason := "allowed by policy",
          policies := allowNames policies req } ∧
      ∀ n, n ∈ allowNames policies req ↔
        ∃ p ∈ policies, p.name = n ∧ ∃ s ∈ p.statements,
          statementMatches s req = true ∧ s.effect = PolicyEffectAllow) ∧
    (¬ HasMatchingEffect policies req PolicyEffectDeny →
      ¬ HasMatchingEffect policies req PolicyEffectAllow →
      evaluatePolicies policies req =
        { allowed := false, reason := "no matching policy found",
          policies := [] }) ∧
    (∀ qs, ReorderedPolicies policies qs →
      (evaluatePolicies qs req).allowed = (evaluatePolicies policies req).allowed ∧
      (evaluatePolicies qs req).reason = (evaluatePolicies policies req).reason ∧
      ∀ n, (evaluatePolicies qs req).policies.count n =
        (evaluatePolicies policies req).policies.count n) := by
  refine ⟨fun hd => ⟨eval_eq_of_deny policies req hd, fun n => ?_⟩,
    fun hnd ha => ⟨eval_eq_of_allow policies req hnd ha, fun n => ?_⟩,
    eval_eq_of_no_match policies req,
    fun qs hre => ?_⟩
  · rw [denyNames_eq_effectNames]
    exact mem_effectNames_iff _ policies req n
  · rw [allowNames_eq_effectNames]
    exact mem_effectNames_iff _ policies req n
  · have hdlen := effectNames_length_eq_of_reordered hre req PolicyEffectDeny
    have halen := effectNames_length_eq_of_reordered hre req PolicyEffectAllow
    have hdc := fun n => count_effectNames_eq_of_reordered hre req PolicyEffectDeny n
    have hac := fun n => count_effectNames_eq_of_reordered hre req PolicyEffectAllow n
    simp only [evaluatePolicies, ← denyNames_eq_effectNames,
      ← allowNames_eq_effectNames] at hdlen halen hdc hac ⊢
    by_cases hd : (denyNames policies req).length > 0
    · have hd' : (denyNames qs req).length > 0 := by omega
      simp only [hd, hd', if_pos]
      exact ⟨by trivial, by trivial, hdc⟩
    · have hd' : ¬ (denyNames qs req).length > 0 := by omega
      by_cases ha : (allowNames policies req).length > 0
      · have ha' : (allowNames qs req).length > 0 := by omega
        simp only [hd, hd', ha, ha', if_neg, if_pos, not_false_iff]
        exact ⟨by trivial, by trivial, hac⟩
      · have ha' : ¬ (allowNames qs req).length > 0 := by omega
        simp only [hd, hd', ha, ha', if_neg, not_false_iff]
        exact ⟨by trivial, by trivial, fun n => by trivial⟩

/-- Witness for C1 at concrete inputs: a document with both a matching
Allow and a matching Deny statement is denied (in either statement
order), a document with only the Allow statement is allowed, and an
empty candidate list falls through to "no matching policy found". -/
theorem claim_C1_deny_overrides_allow_witness :
    evaluatePolicies [sampleMixedDoc] sampleReq =
      { allowed := false, reason := "denied by policy",
        policies := denyNames [sampleMixedDoc] sampleReq } ∧
    evaluatePolicies [{ sampleMixedDoc with
        statements := [sampleAllowStatement] }] sampleReq =
      { allowed := true, reason := "allowed by policy",
        policies := allowNames [{ sampleMixedDoc with
          statements := [sampleAllowStatement] }] sampleReq } ∧
    evaluatePolicies [] sampleReq =
      { allowed := false, reason := "no matching policy found",
        policies := [] } ∧
    (evaluatePolicies [sampleMixedDocRev] sampleReq).allowed =
      (evaluatePolicies [sampleMixedDoc] sampleReq).allowed :=
  ⟨((claim_C1_deny_overrides_allow [sampleMixedDoc] sampleReq).1
      (by decide)).1,
   ((claim_C1_deny_overrides_allow [{ sampleMixedDoc with
        statements := [sampleAllowStatement] }] sampleReq).2.1
      (by decide) (by decide)).1,
   (claim_C1_deny_overrides_allow [] sampleReq).2.2.1
      (by decide) (by decide),
   ((claim_C1_deny_overrides_allow [sampleMixedDoc] sampleReq).2.2.2
      [sampleMixedDocRev]
      ⟨[sampleMixedDocRev],
       List.Forall₂.cons
         ⟨rfl, rfl, rfl, rfl, rfl, rfl,
          List.Perm.swap sampleDenyStatement sampleAllowStatement []⟩
         List.Forall₂.nil,
       List.Perm.refl _⟩).1⟩

/-- Witness for C10 at a concrete input: a document with two matching
Deny statements contributes its name twice to the deny response. -/
theorem claim_C10_name_multiplicity_witness :
    (evaluatePolicies [{ sampleMixedDoc with
        statements := [sampleDenyStatement,
          { sampleDenyStatement with id := "s3" }] }] sampleReq).policies.count
      "D" =
      ([{ sampleMixedDoc with
          statements := [sampleDenyStatement,
            { sampleDenyStatement with id := "s3" }] }].map fun p =>
        if "D" = p.name then
          (p.statements.filter fun s =>
            statementMatches s sampleReq &&
              s.effect == PolicyEffectDeny).length
        else 0).sum :=
  (claim_C10_name_multiplicity [{ sampleMixedDoc with
      statements := [sampleDenyStatement,
        { sampleDenyStatement with id := "s3" }] }] sampleReq "D").1
    (by decide)

theorem assocFind_set_self {α : Type} (m : List (String × α)) (k : String)
    (v : α) : assocFind (assocSet m k v) k = some v := by
  induction m with
  | nil => simp [assocSet, assocFind]
  | cons kv rest ih =>
    by_cases h : kv.1 = k
    · simp [assocSet, assocFind, h]
    · simpa [assocSet, assocFind, h] using ih

theorem assocFind_nil {α : Type} (k : String) :
    assocFind ([] : List (String × α)) k = none := rfl

theorem assocFind_cons {α : Type} (kv : String × α)
    (rest : List (String × α)) (k : String) :
    assocFind (kv :: rest) k =
      if kv.1 = k then some kv.2 else assocFind rest k := by
  by_cases h : kv.1 = k
  · simp [assocFind, List.find?, h]
  · have hb : (kv.1 == k) = false := by simpa using h
    simp [assocFind, List.find?, hb, h]

theorem assocFind_set_other {α : Type} (m : List (String × α))
    (k k' : String) (v : α) (h : k' ≠ k) :
    assocFind (assocSet m k v) k' = assocFind m k' := by
  induction m with
  | nil => simp [assocSet, assocFind_cons, assocFind_nil, Ne.symm h]
  | cons kv rest ih =>
    by_cases hk : kv.1 = k
    · simp only [assocSet, hk, beq_self_eq_true, if_pos, assocFind_cons]
      simp [Ne.symm h, hk]
    · have hkb : (kv.1 == k) = false := by simpa using hk
      simp only [assocSet, hkb, Bool.false_eq_true, if_false,
        assocFind_cons, ih]

theorem mem_of_mem_dedupGo {seen : List String} {l : List PolicyDocument}
    {q : PolicyDocument} : q ∈ dedupGo seen l → q ∈ l := by
  induction l generalizing seen with
  | nil => intro h; cases h
  | cons p rest ih =>
    intro h
    simp only [dedupGo] at h
    split at h
    · exact List.mem_cons_of_mem _ (ih h)
    · rcases List.mem_cons.1 h with rfl | h'
      · exact List.mem_cons_self _ _
      · exact List.mem_cons_of_mem _ (ih h')

theorem exists_mem_dedupGo_of_mem {seen : List String}
    {l : List PolicyDocument} {p : PolicyDocument} (hp : p ∈ l)
    (hid : p.id ∉ seen) : ∃ q ∈ dedupGo seen l, q.id = p.id := by
  induction l generalizing seen with
  | nil => cases hp
  | cons hd rest ih =>
    simp only [dedupGo]
    rcases List.mem_cons.1 hp with rfl | hp'
    · rw [if_neg hid]
      exact ⟨p, List.mem_cons_self _ _, rfl⟩
    · by_cases hhd : hd.id ∈ seen
      · rw [if_pos hhd]
        exact ih hp' hid
      · rw [if_neg hhd]
        by_cases heq : p.id = hd.id
        · exact ⟨hd, List.mem_cons_self _ _, heq.symm⟩
        · have hnotin : p.id ∉ hd.id :: seen := by
            intro hmem
            rcases List.mem_cons.1 hmem with h | h
            exacts [heq h, hid h]
          obtain ⟨q, hq, hqid⟩ := ih hp' hnotin
          exact ⟨q, List.mem_cons_of_mem _ hq, hqid⟩

theorem dedupGo_ids_nodup (seen : List String) (l : List PolicyDocument) :
    ((dedupGo seen l).map fun p => p.id).Nodup ∧
    ∀ q ∈ dedupGo seen l, q.id ∉ seen := by
  induction l generalizing seen with
  | nil => exact ⟨List.nodup_nil, fun q h => absurd h (List.not_mem_nil q)⟩
  | cons p rest ih =>
    simp only [dedupGo]
    by_cases hp : p.id ∈ seen
    · rw [if_pos hp]
      exact ih seen
    · rw [if_neg hp]
      obtain ⟨hnd, hnotin⟩ := ih (p.id :: seen)
      refine ⟨?_, ?_⟩
      · simp only [List.map_cons, List.nodup_cons]
        refine ⟨fun hmem => ?_, hnd⟩
        obtain ⟨q, hq, hqid⟩ := List.mem_map.1 hmem
        exact hnotin q hq (by rw [hqid]; exact List.mem_cons_self _ _)
      · intro q hq
        rcases List.mem_cons.1 hq with rfl | hq'
        · exact hp
        · intro hqs
          exact hnotin q hq' (List.mem_cons_of_mem _ hqs)

theorem mem_bucket_addStatement {p : PolicyDocument} {cache : Cache}
    {s : PolicyStatement} {k : String} {x : PolicyDocument}
    (hx : x ∈ bucket cache k) : x ∈ bucket (addStatement p cache s) k := by
  unfold addStatement
  by_cases hr : extractRoleFromPrincipal s.principal = ""
  · simp only [hr]
    simpa using hx
  · have hb : (extractRoleFromPrincipal s.principal != "") = true := by
      simpa using hr
    simp only [hb, if_pos]
    by_cases hk : k = extractRoleFromPrincipal s.principal
    · subst hk
      unfold bucket
      rw [assocFind_set_self]
      exact List.mem_append_left _ hx
    · unfold bucket
      rw [assocFind_set_other _ _ _ _ hk]
      exact hx

theorem mem_bucket_foldl_addStatement {p : PolicyDocument}
    {stmts : List PolicyStatement} {cache : Cache} {k : String}
    {x : PolicyDocument} (hx : x ∈ bucket cache k) :
    x ∈ bucket (stmts.foldl (addStatement p) cache) k := by
  induction stmts generalizing cache with
  | nil => exact hx
  | cons t rest ih => exact ih (mem_bucket_addStatement hx)

theorem mem_bucket_foldl_addDocument {docs : List PolicyDocument}
    {cache : Cache} {k : String} {x : PolicyDocument}
    (hx : x ∈ bucket cache k) :
    x ∈ bucket (docs.foldl addDocument cache) k := by
  induction docs generalizing cache with
  | nil => exact hx
  | cons d rest ih => exact ih (mem_bucket_foldl_addStatement hx)

theorem mem_bucket_addStatement_self {p : PolicyDocument} {cache : Cache}
    {s : PolicyStatement} (hr : extractRoleFromPrincipal s.principal ≠ "") :
    p ∈ bucket (addStatement p cache s)
      (extractRoleFromPrincipal s.principal) := by
  unfold addStatement
  have hb : (extractRoleFromPrincipal s.principal != "") = true := by
    simpa using hr
  simp only [hb, if_pos]
  unfold bucket
  rw [assocFind_set_self]
  simp

theorem mem_bucket_foldl_addStatement_self {p : PolicyDocument}
    {stmts : List PolicyStatement} {s : PolicyStatement} (hs : s ∈ stmts)
    (hr : extractRoleFromPrincipal s.principal ≠ "") :
    ∀ cache, p ∈ bucket (stmts.foldl (addStatement p) cache)
      (extractRoleFromPrincipal s.principal) := by
  induction stmts with
  | nil => cases hs
  | cons t rest ih =>
    intro cache
    rcases List.mem_cons.1 hs with rfl | hs'
    · simp only [List.foldl_cons]
      exact mem_bucket_foldl_addStatement (mem_bucket_addStatement_self hr)
    · exact ih hs' (addStatement p cache t)

theorem mem_bucket_buildCache {docs : List PolicyDocument}
    {p : PolicyDocument} {s : PolicyStatement} (hp : p ∈ docs)
    (hs : s ∈ p.statements)
    (hr : extractRoleFromPrincipal s.principal ≠ "") :
    p ∈ bucket (buildCache docs) (extractRoleFromPrincipal s.principal) := by
  unfold buildCache
  suffices h : ∀ cache, p ∈ bucket (docs.foldl addDocument cache)
      (extractRoleFromPrincipal s.principal) from h []
  induction docs with
  | nil => cases hp
  | cons d rest ih =>
    intro cache
    rcases List.mem_cons.1 hp with rfl | hp'
    · simp only [List.foldl_cons]
      exact mem_bucket_foldl_addDocument
        (mem_bucket_foldl_addStatement_self hs hr cache)
    · exact ih hp' (addDocument cache d)

/-- C5: the cache lookup for a role is exactly the union of the role's
bucket and the wildcard bucket — every returned document comes from one
of the two buckets, every bucket document is represented by its id,
and ids are deduplicated (no id twice); consequently any document a
load bucketed under the wildcard principal is represented in every
role's lookup, and a document in neither bucket never appears. -/
theorem claim_C5_lookup_is_deduped_union (cache : Cache) (role : String) :
    (∀ p ∈ getPoliciesFromCache cache role,
       p ∈ bucket cache role ∨ p ∈ bucket cache "*") ∧
    ((getPoliciesFromCache cache role).map fun p => p.id).Nodup ∧
    (∀ p : PolicyDocument,
       p ∈ bucket cache role ∨ p ∈ bucket cache "*" →
       ∃ q ∈ getPoliciesFromCache cache role, q.id = p.id) ∧
    (∀ docs : List PolicyDocument, ∀ p ∈ docs,
       (∃ s ∈ p.statements, s.principal = "*") →
       ∃ q ∈ getPoliciesFromCache (buildCache docs) role, q.id = p.id) := by
  refine ⟨fun p hp => ?_, ?_, fun p hp => ?_, fun docs p hp hws => ?_⟩
  · have := mem_of_mem_dedupGo hp
    exact List.mem_append.1 this
  · exact (dedupGo_ids_nodup [] _).1
  · exact exists_mem_dedupGo_of_mem (List.mem_append.2 hp)
      (List.not_mem_nil _)
  · obtain ⟨s, hs, hsp⟩ := hws
    have hr : extractRoleFromPrincipal s.principal = "*" := by
      simp [extractRoleFromPrincipal, hsp]
    have hb : p ∈ bucket (buildCache docs) "*" := by
      rw [← hr]
      exact mem_bucket_buildCache hp hs (by rw [hr]; decide)
    exact exists_mem_dedupGo_of_mem (List.mem_append.2 (Or.inr hb))
      (List.not_mem_nil _)

/-- Witness for C5 at a concrete cache: the document bucketed under the
wildcard principal is represented in the lookup for role `"user"`, and
the lookup's ids are duplicate-free. -/
theorem claim_C5_lookup_is_deduped_union_witness :
    (∃ q ∈ getPoliciesFromCache (buildCache [sampleMixedDoc]) "user",
       q.id = sampleMixedDoc.id) ∧
    (∃ q ∈ getPoliciesFromCache (buildCache [sampleMixedDoc]) "user",
       q.id = sampleMixedDoc.id) ∧
    ((getPoliciesFromCache (buildCache [sampleMixedDoc]) "user").map
      fun p => p.id).Nodup :=
  ⟨(claim_C5_lookup_is_deduped_union (buildCache [sampleMixedDoc])
      "user").2.2.1 sampleMixedDoc (by decide),
   (claim_C5_lookup_is_deduped_union (buildCache [sampleMixedDoc])
      "user").2.2.2 [sampleMixedDoc] sampleMixedDoc (by decide) (by decide),
   (claim_C5_lookup_is_deduped_union (buildCache [sampleMixedDoc])
      "user").2.1⟩

theorem addStatement_eq_of_role_empty {p : PolicyDocument} {cache : Cache}
    {s : PolicyStatement} (hr : extractRoleFromPrincipal s.principal = "") :
    addStatement p cache s = cache := by
  unfold addStatement
  simp [hr]

theorem keys_assocSet {α : Type} (m : List (String × α)) (k : String)
    (v : α) {k' : String} (h : k' ∈ (assocSet m k v).map Prod.fst) :
    k' = k ∨ k' ∈ m.map Prod.fst := by
  induction m with
  | nil =>
    simp only [assocSet, List.map_cons, List.map_nil] at h
    rcases List.mem_cons.1 h with rfl | h'
    · exact Or.inl rfl
    · cases h'
  | cons kv rest ih =>
    by_cases hk : kv.1 = k
    · simp only [assocSet, hk, beq_self_eq_true, if_pos, List.map_cons] at h
      rcases List.mem_cons.1 h with rfl | h'
      · exact Or.inl rfl
      · refine Or.inr ?_
        simp only [List.map_cons]
        exact List.mem_cons_of_mem _ h'
    · have hkb : (kv.1 == k) = false := by simpa using hk
      simp only [assocSet, hkb, Bool.false_eq_true, if_false,
        List.map_cons] at h
      rcases List.mem_cons.1 h with rfl | h'
      · refine Or.inr ?_
        simp only [List.map_cons]
        exact List.mem_cons_self _ _
      · rcases ih h' with h'' | h''
        · exact Or.inl h''
        · refine Or.inr ?_
          simp only [List.map_cons]
          exact List.mem_cons_of_mem _ h''

theorem keys_addStatement {p : PolicyDocument} {cache : Cache}
    {s : PolicyStatement} {k : String}
    (h : k ∈ (addStatement p cache s).map Prod.fst) :
    k ∈ cache.map Prod.fst ∨
      (k = extractRoleFromPrincipal s.principal ∧
        extractRoleFromPrincipal s.principal ≠ "") := by
  by_cases hr : extractRoleFromPrincipal s.principal = ""
  · rw [addStatement_eq_of_role_empty hr] at h
    exact Or.inl h
  · have hb : (extractRoleFromPrincipal s.principal != "") = true := by
      simpa using hr
    unfold addStatement at h
    simp only [hb, if_pos] at h
    rcases keys_assocSet _ _ _ h with h' | h'
    · exact Or.inr ⟨h', hr⟩
    · exact Or.inl h'

theorem keys_foldl_addStatement {p : PolicyDocument}
    {stmts : List PolicyStatement} {cache : Cache} {k : String}
    (h : k ∈ (stmts.foldl (addStatement p) cache).map Prod.fst) :
    k ∈ cache.map Prod.fst ∨ ∃ s ∈ stmts,
      k = extractRoleFromPrincipal s.principal ∧
      extractRoleFromPrincipal s.principal ≠ "" := by
  induction stmts generalizing cache with
  | nil => exact Or.inl h
  | cons t rest ih =>
    simp only [List.foldl_cons] at h
    rcases ih h with h' | h'
    · rcases keys_addStatement h' with h'' | h''
      · exact Or.inl h''
      · exact Or.inr ⟨t, List.mem_cons_self _ _, h''⟩
    · obtain ⟨s, hs, hk⟩ := h'
      exact Or.inr ⟨s, List.mem_cons_of_mem _ hs, hk⟩

theorem keys_foldl_addDocument {docs : List PolicyDocument}
    {cache : Cache} {k : String}
    (h : k ∈ (docs.foldl addDocument cache).map Prod.fst) :
    k ∈ cache.map Prod.fst ∨ ∃ p ∈ docs, ∃ s ∈ p.statements,
      k = extractRoleFromPrincipal s.principal ∧
      extractRoleFromPrincipal s.principal ≠ "" := by
  induction docs generalizing cache with
  | nil => exact Or.inl h
  | cons d rest ih =>
    simp only [List.foldl_cons] at h
    rcases ih h with h' | h'
    · rcases keys_foldl_addStatement h' with h'' | h''
      · exact Or.inl h''
      · obtain ⟨s, hs, hk⟩ := h''
        exact Or.inr ⟨d, List.mem_cons_self _ _, s, hs, hk⟩
    · obtain ⟨p, hp, s, hs, hk⟩ := h'
      exact Or.inr ⟨p, List.mem_cons_of_mem _ hp, s, hs, hk⟩

theorem principal_shape_of_extract {pr k : String}
    (h : extractRoleFromPrincipal pr = k) (hne : k ≠ "") :
    k = "*" ∨ pr = "role:" ++ k := by
  unfold extractRoleFromPrincipal at h
  by_cases hw : pr = "*"
  · simp only [hw, beq_self_eq_true, if_pos] at h
    exact Or.inl h.symm
  · have hwb : (pr == "*") = false := by simpa using hw
    simp only [hwb, Bool.false_eq_true, if_false] at h
    by_cases hg : (decide (pr.length > 5) && (String.take pr 5 == "role:")) = true
    · rw [if_pos (by simpa using hg)] at h
      right
      have hga := hg
      rw [Bool.and_eq_true] at hga
      have htake : String.take pr 5 = "role:" := by
        have := hga.2
        simpa using this
      have hsplit : String.take pr 5 ++ String.drop pr 5 = pr := by
        apply String.ext
        rw [String.data_append, String.data_take, String.data_drop,
          List.take_append_drop]
      rw [htake, h] at hsplit
      exact hsplit.symm
    · rw [if_neg (by simpa using hg)] at h
      exact absurd h.symm hne

theorem take_five_append_role (role : String) :
    String.take ("role:" ++ role) 5 = "role:" := by
  apply String.ext
  rw [String.data_take, String.data_append]
  rw [List.take_left' (by decide : ("role:".data).length = 5)]

theorem matchesPrincipal_bare_false (p role : String) (h1 : p ≠ "*")
    (h2 : String.take p 5 ≠ "role:") : matchesPrincipal p role = false := by
  unfold matchesPrincipal
  have hb1 : (p == "*") = false := by simpa using h1
  have hb2 : (p == "role:" ++ role) = false := by
    simp only [beq_eq_false_iff_ne, ne_eq]
    intro he
    exact h2 (by rw [he, take_five_append_role])
  simp [hb1, hb2]

theorem statementMatches_bare_false (s : PolicyStatement)
    (req : PermissionRequest) (h1 : s.principal ≠ "*")
    (h2 : String.take s.principal 5 ≠ "role:") :
    statementMatches s req = false := by
  unfold statementMatches
  rw [matchesPrincipal_bare_false s.principal req.role h1 h2]
  rfl

theorem matchesPrincipal_roleColon (role : String) :
    matchesPrincipal "role:" role = true ↔ role = "" := by
  constructor
  · intro h
    unfold matchesPrincipal at h
    simp only [Bool.or_eq_true, beq_iff_eq] at h
    rcases h with h' | h'
    · exact absurd h' (by decide)
    · have hd : ("role:" : String).data =
          ("role:" : String).data ++ role.data := by
        rw [String.ext_iff, String.data_append] at h'
        exact h'
      have hlen := congrArg List.length hd
      rw [List.length_append] at hlen
      have hnil : role.data = [] := List.eq_nil_of_length_eq_zero (by omega)
      exact String.ext hnil
  · rintro rfl
    decide

theorem filter_keep_of_imp {α : Type} (l : List α) (keep pred : α → Bool)
    (h : ∀ a ∈ l, pred a = true → keep a = true) :
    (l.filter keep).filter pred = l.filter pred := by
  induction l with
  | nil => rfl
  | cons a rest ih =>
    have hrest := ih fun b hb => h b (List.mem_cons_of_mem _ hb)
    by_cases hk : keep a = true
    · simp [List.filter_cons, hk, hrest]
    · have hp : pred a = false := by
        cases hc : pred a
        · rfl
        · exact absurd (h a (List.mem_cons_self _ _) hc) hk
      simp [List.filter_cons, hk, hp, hrest]

theorem effectNames_filter_keep (policies : List PolicyDocument)
    (req : PermissionRequest) (eff : String)
    (keep : PolicyStatement → Bool)
    (h : ∀ p ∈ policies, ∀ s ∈ p.statements,
      statementMatches s req = true → keep s = true) :
    effectNames eff (policies.map fun p =>
      { p with statements := p.statements.filter keep }) req =
      effectNames eff policies req := by
  unfold effectNames
  induction policies with
  | nil => rfl
  | cons p rest ih =>
    simp only [List.map_cons, List.flatMap_cons]
    congr 1
    · congr 1
      apply filter_keep_of_imp
      intro s hs hps
      have hm : statementMatches s req = true := by
        cases hsm : statementMatches s req
        · rw [hsm] at hps
          cases hps
        · rfl
      exact h p (List.mem_cons_self _ _) s hs hm
    · exact ih fun q hq => h q (List.mem_cons_of_mem _ hq)

theorem evaluatePolicies_filter_keep (policies : List PolicyDocument)
    (req : PermissionRequest) (keep : PolicyStatement → Bool)
    (h : ∀ p ∈ policies, ∀ s ∈ p.statements,
      statementMatches s req = true → keep s = true) :
    evaluatePolicies (policies.map fun p =>
      { p with statements := p.statements.filter keep }) req =
      evaluatePolicies policies req := by
  have hd := effectNames_filter_keep policies req PolicyEffectDeny keep h
  have ha := effectNames_filter_keep policies req PolicyEffectAllow keep h
  unfold evaluatePolicies
  rw [denyNames_eq_effectNames, denyNames_eq_effectNames,
    allowNames_eq_effectNames, allowNames_eq_effectNames, hd, ha]

/-- Counterexample for C9 as stated: the Deny statement with principal
exactly `"role:"` is in the claim's excluded class (neither `"*"` nor a
`"role:"`-prefixed string longer than five characters), yet adding it to
a document that the wildcard statement keeps in the cache flips the
Evaluate decision for an empty-role request from allowed to denied — so
such a statement can influence an Evaluate decision made through the
cache. -/
theorem claim_C9_counterexample :
    (sampleRoleColonStatement.principal ≠ "*" ∧
      ¬ (5 < sampleRoleColonStatement.principal.length ∧
        String.take sampleRoleColonStatement.principal 5 = "role:")) ∧
    statementMatches sampleRoleColonStatement sampleEmptyRoleReq = true ∧
    (Evaluate (some sampleEmptyRoleReq)
      (buildCache [sampleColonFreeDoc])).1.allowed = true ∧
    (Evaluate (some sampleEmptyRoleReq)
      (buildCache [sampleColonDoc])).1.allowed = false := by
  decide

/-- C9 (amended): after a successful load the cache is exactly
`buildCache` of the fetched documents; every key of that mapping is the
wildcard `"*"` or a nonempty role `r` witnessed by a statement whose
principal is literally `"role:" ++ r`; a statement whose principal is
neither `"*"` nor a `"role:"`-prefixed string longer than five
characters contributes no cache bucket entry; if its principal moreover
lacks the five-character `"role:"` prefix altogether (a bare string
such as `"admin"`) it matches no request, and dropping all such
statements never changes an evaluation decision — whereas the literal
`"role:"` principal matches exactly the requests with empty role, so it
can still influence a decision through a document cached by another
statement. -/
theorem claim_C9_cache_key_invariant (docs : List PolicyDocument) :
    (∀ cache : Cache, (loadPolicies (.ok docs) cache).2 = buildCache docs) ∧
    (∀ k, k ∈ (buildCache docs).map Prod.fst →
       k = "*" ∨ (k ≠ "" ∧ ∃ p ∈ docs, ∃ s ∈ p.statements,
         s.principal = "role:" ++ k)) ∧
    (∀ (p : PolicyDocument) (cache : Cache) (s : PolicyStatement),
       s.principal ≠ "*" →
       ¬ (5 < s.principal.length ∧ String.take s.principal 5 = "role:") →
       addStatement p cache s = cache) ∧
    (∀ (s : PolicyStatement) (req : PermissionRequest),
       s.principal ≠ "*" → String.take s.principal 5 ≠ "role:" →
       statementMatches s req = false) ∧
    (∀ (policies : List PolicyDocument) (req : PermissionRequest),
       evaluatePolicies (policies.map fun p =>
         { p with statements := p.statements.filter fun s =>
             s.principal == "*" ||
             String.take s.principal 5 == "role:" }) req =
         evaluatePolicies policies req) ∧
    (∀ role, matchesPrincipal "role:" role = true ↔ role = "") := by
  refine ⟨fun cache => rfl, fun k hk => ?_, fun p cache s h1 h2 => ?_,
    statementMatches_bare_false, fun policies req => ?_,
    matchesPrincipal_roleColon⟩
  · unfold buildCache at hk
    rcases keys_foldl_addDocument hk with h' | h'
    · cases h'
    · obtain ⟨p, hp, s, hs, hkeq, hkne⟩ := h'
      have hkne' : k ≠ "" := by
        rw [hkeq]
        exact hkne
      rcases principal_shape_of_extract hkeq.symm hkne' with hw | hro
      · exact Or.inl hw
      · exact Or.inr ⟨hkne', p, hp, s, hs, hro⟩
  · have hr : extractRoleFromPrincipal s.principal = "" := by
      unfold extractRoleFromPrincipal
      have hb1 : (s.principal == "*") = false := by simpa using h1
      have hb2 : (decide (s.principal.length > 5) &&
          (String.take s.principal 5 == "role:")) = false := by
        by_cases hl : 5 < s.principal.length
        · have hnt : String.take s.principal 5 ≠ "role:" :=
            fun ht => h2 ⟨hl, ht⟩
          have hntb : (String.take s.principal 5 == "role:") = false := by
            simpa using hnt
          simp [hntb]
        · have hlb : decide (s.principal.length > 5) = false := by
            simpa using hl
          simp [hlb]
      simp only [hb1, Bool.false_eq_true, if_false]
      rw [if_neg (by simp [hb2])]
    exact addStatement_eq_of_role_empty hr
  · refine evaluatePolicies_filter_keep policies req _ fun p hp s hs hm => ?_
    by_cases hw : s.principal = "*"
    · simp [hw]
    · by_cases hro : String.take s.principal 5 = "role:"
      · simp [hro]
      · rw [statementMatches_bare_false s req hw hro] at hm
        cases hm

/-- Witness for the amended C9 at concrete inputs: the cache built from
the default user document has the key `"user"` backed by a `role:user`
statement; a bare-name principal contributes nothing to an empty cache
and matches no request. -/
theorem claim_C9_cache_key_invariant_witness :
    ("user" = "*" ∨ ("user" ≠ "" ∧
      ∃ p ∈ [createUserPolicy "d2" fun _ => "s"], ∃ s ∈ p.statements,
        s.principal = "role:" ++ "user")) ∧
    addStatement sampleMixedDoc [] sampleBareStatement = [] ∧
    statementMatches sampleBareStatement sampleReq = false :=
  ⟨(claim_C9_cache_key_invariant [createUserPolicy "d2" fun _ => "s"]).2.1
      "user" (by decide),
   (claim_C9_cache_key_invariant []).2.2.1 sampleMixedDoc []
      sampleBareStatement (by decide) (by decide),
   (claim_C9_cache_key_invariant []).2.2.2.1 sampleBareStatement sampleReq
      (by decide) (by decide)⟩

theorem expectChars_append (l rest : List Char) :
    expectChars l (l ++ rest) = some rest := by
  induction l with
  | nil => rfl
  | cons c l ih => simp [expectChars, ih]

theorem parseStringBody_quote (rest : List Char) :
    parseStringBody ('"' :: rest) = some ([], rest) := by
  rw [parseStringBody.eq_def]
  simp

theorem parseStringBody_esc (d : Char) (rest : List Char)
    (hd : d = '"' ∨ d = '\\') :
    parseStringBody ('\\' :: d :: rest) =
      (parseStringBody rest).map fun p => (d :: p.1, p.2) := by
  rw [parseStringBody.eq_def]
  simp [hd]

theorem parseStringBody_other (c : Char) (rest : List Char)
    (h1 : c ≠ '"') (h2 : c ≠ '\\') :
    parseStringBody (c :: rest) =
      (parseStringBody rest).map fun p => (c :: p.1, p.2) := by
  rw [parseStringBody.eq_def]
  simp [h1, h2]

theorem parseStringBody_escape (s : List Char) (rest : List Char) :
    parseStringBody (escapeChars s ++ '"' :: rest) = some (s, rest) := by
  induction s with
  | nil =>
    show parseStringBody ([] ++ '"' :: rest) = some ([], rest)
    rw [List.nil_append]
    exact parseStringBody_quote rest
  | cons c cs ih =>
    by_cases hc : c = '"' ∨ c = '\\'
    · have hesc : escapeChars (c :: cs) = '\\' :: c :: escapeChars cs := by
        simp [escapeChars, hc]
      rw [hesc]
      show parseStringBody
          ('\\' :: c :: (escapeChars cs ++ '"' :: rest)) = _
      rw [parseStringBody_esc c _ hc, ih]
      rfl
    · have hesc : escapeChars (c :: cs) = c :: escapeChars cs := by
        simp [escapeChars, hc]
      push_neg at hc
      rw [hesc]
      show parseStringBody (c :: (escapeChars cs ++ '"' :: rest)) = _
      rw [parseStringBody_other c _ hc.1 hc.2, ih]
      rfl

theorem digitVal_digitChar {d : Nat} (hd : d < 10) :
    digitVal (digitChar d) = d := by
  interval_cases d <;> decide

theorem isDigitChar_digitChar {d : Nat} (hd : d < 10) :
    isDigitChar (digitChar d) = true := by
  interval_cases d <;> decide

theorem natDigitsAux_eq (fuel n : Nat) (h : n ≤ fuel) :
    natDigitsAux fuel n = (Nat.digits 10 n).map digitChar := by
  induction fuel generalizing n with
  | zero =>
    interval_cases n
    simp [natDigitsAux]
  | succ fuel ih =>
    by_cases hn : n = 0
    · simp [natDigitsAux, hn]
    · rw [natDigitsAux, if_neg hn,
        Nat.digits_def' (by norm_num : (1 : ℕ) < 10) (Nat.pos_of_ne_zero hn),
        List.map_cons]
      congr 1
      have hdiv : n / 10 < n :=
        Nat.div_lt_self (Nat.pos_of_ne_zero hn) (by norm_num)
      exact ih (n / 10) (by omega)

theorem natToChars_all_digits (n : Nat) :
    ∀ c ∈ natToChars n, isDigitChar c = true := by
  intro c hc
  unfold natToChars at hc
  by_cases hn : n = 0
  · simp only [hn, if_pos, List.mem_singleton] at hc
    subst hc
    decide
  · rw [if_neg hn, natDigitsAux_eq n n le_rfl, List.mem_reverse] at hc
    obtain ⟨d, hd, rfl⟩ := List.mem_map.1 hc
    exact isDigitChar_digitChar (Nat.digits_lt_base (by norm_num) hd)

theorem natToChars_ne_nil (n : Nat) : natToChars n ≠ [] := by
  unfold natToChars
  by_cases hn : n = 0
  · simp [hn]
  · rw [if_neg hn, natDigitsAux_eq n n le_rfl]
    have hdig : Nat.digits 10 n ≠ [] := Nat.digits_ne_nil_iff_ne_zero.2 hn
    simp [hdig]

theorem takeWhile_dropWhile_append {p : Char → Bool} {l rest : List Char}
    (hl : ∀ c ∈ l, p c = true)
    (hrest : ∀ c, rest.head? = some c → p c = false) :
    (l ++ rest).takeWhile p = l ∧ (l ++ rest).dropWhile p = rest := by
  induction l with
  | nil =>
    cases rest with
    | nil => simp
    | cons r rs =>
      have hr := hrest r rfl
      simp [List.takeWhile_cons, List.dropWhile_cons, hr]
  | cons c l ih =>
    have hc := hl c (List.mem_cons_self _ _)
    have hih := ih fun d hd => hl d (List.mem_cons_of_mem _ hd)
    simp [List.takeWhile_cons, List.dropWhile_cons, hc, hih.1, hih.2]

theorem foldl_digitVal_natToChars (n : Nat) :
    (natToChars n).foldl (fun a c => 10 * a + digitVal c) 0 = n := by
  unfold natToChars
  by_cases hn : n = 0
  · simp [hn]
    decide
  · rw [if_neg hn, natDigitsAux_eq n n le_rfl, List.foldl_reverse,
      List.foldr_map]
    have hgen : ∀ l : List Nat, (∀ d ∈ l, d < 10) →
        l.foldr (fun d a => 10 * a + digitVal (digitChar d)) 0 =
          Nat.ofDigits 10 l := by
      intro l hl
      induction l with
      | nil => simp [Nat.ofDigits]
      | cons d ds ih =>
        simp only [List.foldr_cons, Nat.ofDigits_cons,
          ih fun x hx => hl x (List.mem_cons_of_mem _ hx),
          digitVal_digitChar (hl d (List.mem_cons_self _ _))]
        ring
    rw [hgen _ fun d hd => Nat.digits_lt_base (by norm_num) hd]
    exact Nat.ofDigits_digits 10 n

theorem parseDigits_natToChars (n : Nat) (rest : List Char)
    (hrest : ∀ c, rest.head? = some c → isDigitChar c = false) :
    parseDigits (natToChars n ++ rest) = some (n, rest) := by
  obtain ⟨ht, hd⟩ :=
    takeWhile_dropWhile_append (natToChars_all_digits n) hrest
  unfold parseDigits
  simp only [ht, hd]
  rw [if_neg (by simpa [List.isEmpty_iff] using natToChars_ne_nil n)]
  rw [foldl_digitVal_natToChars]

theorem isDigitChar_facts {c : Char} (h : isDigitChar c = true) :
    c ≠ 'n' ∧ c ≠ 't' ∧ c ≠ 'f' ∧ c ≠ '"' ∧ c ≠ '-' := by
  have hv := of_decide_eq_true h
  refine ⟨?_, ?_, ?_, ?_, ?_⟩ <;> rintro rfl <;> revert hv <;> decide

theorem expectChars_nil (cs : List Char) :
    expectChars [] cs = some cs := by
  rw [expectChars.eq_def]

theorem expectChars_cons (e : Char) (l : List Char) (c : Char)
    (cs : List Char) :
    expectChars (e :: l) (c :: cs) =
      if c = e then expectChars l cs else none := by
  rw [expectChars.eq_def]

theorem parseValue_marshal (v : GoValue) (rest : List Char)
    (hrest : ∀ c, rest.head? = some c → isDigitChar c = false) :
    parseValue (marshalValue v ++ rest) = some (v, rest) := by
  cases v with
  | vnull =>
    show parseValue ('n' :: (['u', 'l', 'l'] ++ rest)) = _
    rw [parseValue.eq_def]
    simp [expectChars_cons, expectChars_nil]
  | vbool b =>
    cases b
    · show parseValue ('f' :: (['a', 'l', 's', 'e'] ++ rest)) = _
      rw [parseValue.eq_def]
      simp [expectChars_cons, expectChars_nil]
    · show parseValue ('t' :: (['r', 'u', 'e'] ++ rest)) = _
      rw [parseValue.eq_def]
      simp [expectChars_cons, expectChars_nil]
  | vstr s =>
    show parseValue ('"' :: (escapeChars s.data ++ ['"'] ++ rest)) = _
    rw [parseValue.eq_def]
    have hassoc : escapeChars s.data ++ ['"'] ++ rest =
        escapeChars s.data ++ '"' :: rest := by
      simp
    simp [hassoc, parseStringBody_escape]
  | vint n =>
    cases n with
    | ofNat m =>
      show parseValue (natToChars m ++ rest) = _
      obtain ⟨c, cs, hnc⟩ : ∃ c cs, natToChars m = c :: cs := by
        cases h : natToChars m with
        | nil => exact absurd h (natToChars_ne_nil m)
        | cons a b => exact ⟨a, b, rfl⟩
      have hcd : isDigitChar c = true := by
        refine natToChars_all_digits m c ?_
        rw [hnc]
        exact List.mem_cons_self _ _
      obtain ⟨h1, h2, h3, h4, h5⟩ := isDigitChar_facts hcd
      rw [hnc]
      show parseValue (c :: (cs ++ rest)) = _
      rw [parseValue.eq_def]
      simp only [h1, h2, h3, h4, h5, if_false, if_neg, not_false_iff]
      rw [show c :: (cs ++ rest) = (c :: cs) ++ rest from rfl, ← hnc,
        parseDigits_natToChars m rest hrest]
      rfl
    | negSucc m =>
      show parseValue ('-' :: (natToChars (m + 1) ++ rest)) = _
      have hdig : parseDigits (natToChars (m + 1) ++ rest) =
          some (m + 1, rest) := parseDigits_natToChars (m + 1) rest hrest
      rw [parseValue.eq_def]
      simp [hdig, Int.negSucc_eq]

theorem parseMember_marshal (kv : String × GoValue) (rest : List Char)
    (hrest : ∀ c, rest.head? = some c → isDigitChar c = false) :
    parseMember (marshalMember kv ++ rest) = some (kv, rest) := by
  have hsh : marshalMember kv ++ rest =
      '"' :: (escapeChars kv.1.data ++
        '"' :: (':' :: (marshalValue kv.2 ++ rest))) := by
    simp [marshalMember]
  rw [hsh, parseMember.eq_def]
  simp [parseStringBody_escape, expectChars_cons, expectChars_nil,
    parseValue_marshal kv.2 rest hrest]

theorem marshalMember_head (kv : String × GoValue) :
    marshalMember kv =
      '"' :: (escapeChars kv.1.data ++ ['"'] ++ [':'] ++ marshalValue kv.2) :=
  rfl

theorem joinComma_cons₂ (m1 m2 : List Char) (ms : List (List Char)) :
    joinComma (m1 :: m2 :: ms) = m1 ++ [','] ++ joinComma (m2 :: ms) := by
  rw [joinComma.eq_def]

theorem length_le_joinComma_append (ms : List (String × GoValue))
    (tail : List Char) :
    ms.length ≤ (joinComma (ms.map marshalMember) ++ tail).length := by
  induction ms generalizing tail with
  | nil => simp
  | cons kv ms' ih =>
    cases ms' with
    | nil =>
      show 1 ≤ (joinComma [marshalMember kv] ++ tail).length
      have hm : joinComma [marshalMember kv] = marshalMember kv := rfl
      rw [hm, marshalMember_head]
      simp
    | cons kv2 ms'' =>
      rw [List.map_cons, List.map_cons, joinComma_cons₂, ← List.map_cons]
      have hle := ih tail
      simp only [List.length_cons, List.append_assoc, List.length_append,
        List.length_cons] at hle ⊢
      omega

theorem parseMembers_marshal (ms : List (String × GoValue))
    (rest : List Char) : ∀ fuel : Nat, ms ≠ [] → ms.length ≤ fuel →
    parseMembers fuel
      (joinComma (ms.map marshalMember) ++ rbraceChar :: rest) =
      some (ms, rest) := by
  induction ms generalizing rest with
  | nil => intro fuel hne; exact absurd rfl hne
  | cons kv ms' ih =>
    intro fuel hne hfuel
    cases fuel with
    | zero => simp at hfuel
    | succ fuel =>
      cases ms' with
      | nil =>
        show parseMembers (fuel + 1)
          (marshalMember kv ++ rbraceChar :: rest) = _
        rw [parseMembers.eq_def]
        have hpm := parseMember_marshal kv (rbraceChar :: rest)
          (fun c hc => by
            simp only [List.head?_cons, Option.some.injEq] at hc
            subst hc
            decide)
        have hbc : rbraceChar ≠ ',' := by decide
        simp [hpm, hbc]
      | cons kv2 ms'' =>
        have hsh : joinComma ((kv :: kv2 :: ms'').map marshalMember) ++
              rbraceChar :: rest =
            marshalMember kv ++ ',' ::
              (joinComma ((kv2 :: ms'').map marshalMember) ++
                rbraceChar :: rest) := by
          simp only [List.map_cons, joinComma_cons₂, List.append_assoc,
            List.cons_append, List.nil_append]
        rw [hsh, parseMembers.eq_def]
        have hpm := parseMember_marshal kv
          (',' :: (joinComma ((kv2 :: ms'').map marshalMember) ++
            rbraceChar :: rest))
          (fun c hc => by
            simp only [List.head?_cons, Option.some.injEq] at hc
            subst hc
            decide)
        have hih := ih rest fuel (by simp)
          (by simp only [List.length_cons] at hfuel ⊢; omega)
        rw [hpm]
        simp only [List.map_cons] at hih
        simp [hih]

theorem joinComma_marshalMember_quote (kv : String × GoValue)
    (ms : List (String × GoValue)) :
    ∃ t, joinComma ((kv :: ms).map marshalMember) = '"' :: t := by
  cases ms with
  | nil => exact ⟨_, marshalMember_head kv⟩
  | cons kv2 ms' =>
    rw [List.map_cons, List.map_cons, joinComma_cons₂, marshalMember_head]
    exact ⟨_, rfl⟩

theorem parseJsonObject_marshal (m : List (String × GoValue))
    (rest : List Char) :
    parseJsonObject (marshalConds m ++ rest) = some (m, rest) := by
  cases m with
  | nil =>
    show parseJsonObject (lbraceChar :: rbraceChar :: rest) = _
    rw [parseJsonObject.eq_def]
    simp
  | cons kv ms =>
    have hmc : marshalConds (kv :: ms) ++ rest =
        lbraceChar :: (joinComma ((kv :: ms).map marshalMember) ++
          rbraceChar :: rest) := by
      show (lbraceChar :: joinComma ((kv :: ms).map marshalMember) ++
        [rbraceChar]) ++ rest = _
      simp [List.append_assoc]
    rw [hmc, parseJsonObject.eq_def]
    obtain ⟨t, ht⟩ := joinComma_marshalMember_quote kv ms
    have hquote : joinComma ((kv :: ms).map marshalMember) ++
        rbraceChar :: rest = '"' :: (t ++ rbraceChar :: rest) := by
      rw [ht]
      rfl
    have hfuel := length_le_joinComma_append (kv :: ms) (rbraceChar :: rest)
    have hpm := parseMembers_marshal (kv :: ms) rest
      ((joinComma ((kv :: ms).map marshalMember) ++
        rbraceChar :: rest).length) (by simp) hfuel
    rw [hquote] at hpm ⊢
    simp only [hquote]
    have hq : ('"' : Char) ≠ rbraceChar := by decide
    simp [hq]
    simpa using hpm

theorem unmarshal_marshal_conditions (m : List (String × GoValue)) :
    unmarshalConditions (String.mk (marshalConds m)) = m := by
  unfold unmarshalConditions
  have hne : marshalConds m ≠ [] := by
    cases m <;> simp [marshalConds]
  have hsne : (String.mk (marshalConds m) == "") = false := by
    simp only [beq_eq_false_iff_ne, ne_eq, String.ext_iff]
    simpa using hne
  rw [hsne]
  simp only [Bool.false_eq_true, if_false]
  have hobj := parseJsonObject_marshal m []
  rw [List.append_nil] at hobj
  show (match parseJsonObject (marshalConds m) with
    | some (mm, []) => mm
    | _ => []) = m
  rw [hobj]

/-- C6: converting a document to its SQLite representation and back
reproduces every statement's effect, principal, action, resource and
condition map (the conditions surviving the JSON text column roundtrip,
including the empty map), and the document's own identifying fields. -/
theorem claim_C6_sqlite_roundtrip (policy : PolicyDocument) :
    (toPolicyDocument (fromPolicyDocument policy)).id = policy.id ∧
    (toPolicyDocument (fromPolicyDocument policy)).name = policy.name ∧
    (toPolicyDocument (fromPolicyDocument policy)).version = policy.version ∧
    (toPolicyDocument (fromPolicyDocument policy)).isActive =
      policy.isActive ∧
    List.Forall₂ (fun a b =>
        a.effect = b.effect ∧ a.principal = b.principal ∧
        a.action = b.action ∧ a.resource = b.resource ∧
        a.conditions = b.conditions)
      (toPolicyDocument (fromPolicyDocument policy)).statements
      policy.statements := by
  refine ⟨rfl, rfl, rfl, rfl, ?_⟩
  show List.Forall₂ _ ((policy.statements.map _).map _) policy.statements
  rw [List.map_map]
  induction policy.statements with
  | nil => exact List.Forall₂.nil
  | cons s rest ih =>
    exact List.Forall₂.cons
      ⟨rfl, rfl, rfl, rfl, unmarshal_marshal_conditions s.conditions⟩ ih

end CleanArch
